import Mathlib

/-!
Verification development for a command-line quiz generator
(Test-From-Flashcards).  The program loads term/definition records from a
CSV file, builds three kinds of questions (pick-the-definition,
pick-the-term, True/False) while tracking a set of already-used record
indices, and scores an interactive session.

The definitions below are a shallow embedding of `main.py`.  Randomness
(`random.choice`, `random.sample`, `random.shuffle`) is made explicit:
each draw is driven by caller-supplied seed values, a drawn element being
the list element at position `seed % length`.  Python's in-place mutation
of `used_indices` is modelled by returning the new set; an uncaught
Python exception (IndexError / ValueError from the `random` module) is
modelled by the `GenResult.error` constructor, while the deliberate
`return None, None, None` paths are `GenResult.insufficient`.
-/

/-- One term/definition pair, as produced by `load_csv`. -/
structure Record where
  term : String
  definition : String
deriving DecidableEq

/-- A generated question: prompt, ordered option texts and the 1-based
label (as a string) of the correct option. -/
structure Question where
  prompt : String
  options : List String
  correct_label : String
deriving DecidableEq

/-- Outcome of one generator call: a value, the deliberate `None` return
(insufficient pool), or an uncaught Python exception. -/
inductive GenResult (α : Type) where
  | ok (a : α)
  | insufficient
  | error
deriving DecidableEq

/-- The single-quote character, used by the f-string prompts. -/
def sqc : String := (Char.ofNat 39).toString

/-- Prompt of a pick-the-definition question (f-string of line 133). -/
def defPrompt (t : String) : String :=
  "What is the definition of " ++ sqc ++ t ++ sqc ++ "?"

/-- Prompt of a pick-the-term question (f-string of line 162). -/
def termPrompt (d : String) : String :=
  "Which term matches this definition: " ++ sqc ++ d ++ sqc ++ "?"

/-- Prompt of a True/False question (f-strings of lines 182/190). -/
def tfPrompt (t d : String) : String :=
  "True or False: The term " ++ sqc ++ t ++ sqc ++ " means " ++ sqc ++ d ++ sqc

/-- `random.choice(l)` driven by a seed: the element at position
`s % l.length`; `none` exactly when `l` is empty (Python raises
IndexError there). -/
def randChoice {α : Type} (l : List α) (s : ℕ) : Option α :=
  l[s % l.length]?

/-- `random.sample(l, k)` driven by a seed stream: repeatedly draw the
element at position `s i % remaining length` and remove it; `none` when
the population is exhausted early (Python raises ValueError when
`k > len(l)`). -/
def randSample {α : Type} [BEq α] : List α → ℕ → (ℕ → ℕ) → Option (List α)
  | _, 0, _ => some []
  | l, k+1, s =>
    match l[s 0 % l.length]? with
    | none => none
    | some a => (randSample (l.erase a) k (fun n => s (n+1))).map (a :: ·)

/-- `random.sample(l, k)` with a Python-int count: Python raises
ValueError for a negative `k`. -/
def randSampleZ {α : Type} [BEq α] (l : List α) (k : ℤ) (s : ℕ → ℕ) :
    Option (List α) :=
  if k < 0 then none else randSample l k.toNat s

/-- Seed-driven selection shuffle modelling `random.shuffle`: draw
`l.length` elements without replacement.  Every achievable output is a
permutation of the input. -/
def drawShuffle {α : Type} [BEq α] : ℕ → (ℕ → ℕ) → List α → List α
  | 0, _, _ => []
  | k+1, s, l =>
    match l[s 0 % l.length]? with
    | none => []
    | some a => a :: drawShuffle k (fun n => s (n+1)) (l.erase a)

/-- `random.shuffle(l)` driven by a seed stream. -/
def shuffle {α : Type} [BEq α] (l : List α) (s : ℕ → ℕ) : List α :=
  drawShuffle l.length s l

/-- `[i for i in range(len(pool)) if i not in used_indices]`
(lines 110/139/168). -/
def availableIndices (pool : List Record) (used : Finset ℕ) : List ℕ :=
  (List.range pool.length).filter (fun i => decide (i ∉ used))

/-- `pool[i]`; out-of-range access never happens on reachable paths. -/
def recAt (pool : List Record) (i : ℕ) : Record :=
  pool.getD i ⟨"", ""⟩

/-- `generate_definition_question` (lines 107-135).  Returns the question
outcome together with the `used_indices` set as left by the call. -/
def generate_definition_question (pool : List Record) (used : Finset ℕ)
    (num_choices : ℕ) (cSeed : ℕ) (dSeed sSeed : ℕ → ℕ) :
    GenResult Question × Finset ℕ :=
  let available := availableIndices pool used
  if available.length < num_choices then (GenResult.insufficient, used) else
    match randChoice available cSeed with
    | none => (GenResult.error, used)
    | some correct_idx =>
      let correct_item := recAt pool correct_idx
      let used' := insert correct_idx used
      match randSampleZ (available.filter (fun i => i != correct_idx))
          ((num_choices : ℤ) - 1) dSeed with
      | none => (GenResult.error, used')
      | some distractor_indices =>
        let distractors :=
          distractor_indices.map (fun i => (recAt pool i).definition)
        let options := shuffle (correct_item.definition :: distractors) sSeed
        let correct_num := toString (options.indexOf correct_item.definition + 1)
        (GenResult.ok ⟨defPrompt correct_item.term, options, correct_num⟩, used')

/-- `generate_term_question` (lines 137-164). -/
def generate_term_question (pool : List Record) (used : Finset ℕ)
    (num_choices : ℕ) (cSeed : ℕ) (dSeed sSeed : ℕ → ℕ) :
    GenResult Question × Finset ℕ :=
  let available := availableIndices pool used
  if available.length < num_choices then (GenResult.insufficient, used) else
    match randChoice available cSeed with
    | none => (GenResult.error, used)
    | some correct_idx =>
      let correct_item := recAt pool correct_idx
      let used' := insert correct_idx used
      match randSampleZ (available.filter (fun i => i != correct_idx))
          ((num_choices : ℤ) - 1) dSeed with
      | none => (GenResult.error, used')
      | some distractor_indices =>
        let distractors :=
          distractor_indices.map (fun i => (recAt pool i).term)
        let options := shuffle (correct_item.term :: distractors) sSeed
        let correct_num := toString (options.indexOf correct_item.term + 1)
        (GenResult.ok ⟨termPrompt correct_item.definition, options, correct_num⟩,
         used')

/-- `generate_tf_question` (lines 166-194).  `coin` is the result of
`random.choice([True, False])`. -/
def generate_tf_question (pool : List Record) (used : Finset ℕ)
    (coin : Bool) (cSeed wSeed : ℕ) : GenResult Question × Finset ℕ :=
  let available := availableIndices pool used
  if available.isEmpty then (GenResult.insufficient, used) else
    match randChoice available cSeed with
    | none => (GenResult.error, used)
    | some correct_idx =>
      let correct_item := recAt pool correct_idx
      let used' := insert correct_idx used
      if coin then
        (GenResult.ok ⟨tfPrompt correct_item.term correct_item.definition,
          ["True", "False"], "1"⟩, used')
      else
        match randChoice (available.filter (fun i => i != correct_idx)) wSeed with
        | none => (GenResult.error, used')
        | some wrong_idx =>
          let wrong_definition := (recAt pool wrong_idx).definition
          (GenResult.ok ⟨tfPrompt correct_item.term wrong_definition,
            ["True", "False"], "2"⟩, used')

/-- Row-processing loop of `load_csv` (lines 20-25), over already-parsed
CSV rows: keep a row when it has at least two fields and both trimmed
fields are non-empty. -/
def load_csv : List (List String) → List Record
  | [] => []
  | row :: rest =>
    if 2 ≤ row.length then
      let term := (row.getD 0 "").trim
      let definition := (row.getD 1 "").trim
      if term ≠ "" ∧ definition ≠ "" then
        ⟨term, definition⟩ :: load_csv rest
      else load_csv rest
    else load_csv rest

/-- Spec-side predicate, stated in the words of the external-interface
section, for comparison with `load_csv`: a row is kept when it has at
least two fields and its first two fields are non-empty after trimming
whitespace. -/
def specValidRow (row : List String) : Bool :=
  decide (2 ≤ row.length) && decide ((row.getD 0 "").trim ≠ "") &&
    decide ((row.getD 1 "").trim ≠ "")

/-- Spec-side record of a kept row, for comparison with `load_csv`: its
first two fields trimmed. -/
def specRecordOf (row : List String) : Record :=
  ⟨(row.getD 0 "").trim, (row.getD 1 "").trim⟩

/-- `percentage = (score / total_questions) * 100 if total_questions > 0
else 0` (line 276), with exact rational division. -/
def percentageOf (score total : ℕ) : ℚ :=
  if 0 < total then (score : ℚ) / (total : ℚ) * 100 else 0

/-- The qualitative result band printed at lines 280-289. -/
inductive Band where
  | excellent
  | great
  | good
  | passed
  | keepPracticing
deriving DecidableEq

/-- Band selection if-chain of lines 280-289. -/
def bandOf (p : ℚ) : Band :=
  if 90 ≤ p then Band.excellent
  else if 80 ≤ p then Band.great
  else if 70 ≤ p then Band.good
  else if 60 ≤ p then Band.passed
  else Band.keepPracticing

/-- Mutable state of `run_test` (lines 218-220). -/
structure SessionState where
  score : ℕ
  total : ℕ
  used : Finset ℕ
deriving DecidableEq

/-- One planned question of a session: its type, the seeds driving its
random draws, and the answer the user will give. -/
inductive Step where
  | defQ (num_choices : ℕ) (cSeed : ℕ) (dSeed sSeed : ℕ → ℕ) (answer : String)
  | termQ (num_choices : ℕ) (cSeed : ℕ) (dSeed sSeed : ℕ → ℕ) (answer : String)
  | tfQ (coin : Bool) (cSeed wSeed : ℕ) (answer : String)

/-- The generator call a step performs (lines 225/243/261). -/
def Step.gen (pool : List Record) (used : Finset ℕ) :
    Step → GenResult Question × Finset ℕ
  | Step.defQ k c d s _ => generate_definition_question pool used k c d s
  | Step.termQ k c d s _ => generate_term_question pool used k c d s
  | Step.tfQ coin c w _ => generate_tf_question pool used coin c w

/-- The answer the user gives at this step. -/
def Step.answer : Step → String
  | Step.defQ _ _ _ _ a => a
  | Step.termQ _ _ _ _ a => a
  | Step.tfQ _ _ _ a => a

/-- The seed that drives the correct-answer draw of this step. -/
def Step.cSeed : Step → ℕ
  | Step.defQ _ c _ _ _ => c
  | Step.termQ _ c _ _ _ => c
  | Step.tfQ _ c _ _ => c

/-- One loop iteration of `run_test` (lines 224-273): call the generator,
then on success compare the answer with the correct label, adding one to
the score on a match and one to the answered total unconditionally.  On a
non-`ok` outcome the score and the total are untouched (the block stops,
or the process dies); the used set is whatever the generator left. -/
def doStep (pool : List Record) (st : SessionState) (s : Step) : SessionState :=
  match Step.gen pool st.used s with
  | (GenResult.ok q, used') =>
    { score := if Step.answer s = q.correct_label then st.score + 1 else st.score
      total := st.total + 1
      used := used' }
  | (GenResult.insufficient, used') =>
    { score := st.score, total := st.total, used := used' }
  | (GenResult.error, used') =>
    { score := st.score, total := st.total, used := used' }

/-- A whole session: fold the steps from an initial state. -/
def runSteps (pool : List Record) (st : SessionState) (l : List Step) :
    SessionState :=
  l.foldl (doStep pool) st

/-- Initial session state (lines 218-220). -/
def initialState : SessionState := ⟨0, 0, ∅⟩

/-- The example pool used by the concrete scenarios. -/
def samplePool : List Record :=
  [⟨"HTTP", "HyperText Transfer Protocol"⟩, ⟨"DNS", "Domain Name System"⟩,
   ⟨"TCP", "Transmission Control Protocol"⟩, ⟨"IP", "Internet Protocol"⟩]

/-! ## Helper lemmas about the randomness primitives -/

theorem perm_cons_erase_beq {α : Type} [BEq α] [LawfulBEq α] {a : α}
    {l : List α} (h : a ∈ l) : l.Perm (a :: l.erase a) := by
  induction l with
  | nil => cases h
  | cons b t ih =>
    by_cases hba : b = a
    · subst hba
      rw [List.erase_cons_head]
    · rw [List.erase_cons_tail]
      · have hat : a ∈ t := by
          cases List.mem_cons.mp h with
          | inl hh => exact absurd hh.symm hba
          | inr hh => exact hh
        exact ((ih hat).cons b).trans (List.Perm.swap a b _)
      · simp [hba]

theorem randChoice_mem {α : Type} {l : List α} {s : ℕ} {a : α}
    (h : randChoice l s = some a) : a ∈ l :=
  List.getElem?_mem h

theorem randChoice_some_of_ne_nil {α : Type} {l : List α} (h : l ≠ [])
    (s : ℕ) : ∃ a, randChoice l s = some a := by
  have hpos : 0 < l.length := List.length_pos.mpr h
  have hlt : s % l.length < l.length := Nat.mod_lt _ hpos
  exact ⟨l.get ⟨s % l.length, hlt⟩, List.getElem?_eq_getElem hlt⟩

theorem randChoice_nil {α : Type} (s : ℕ) : randChoice ([] : List α) s = none :=
  rfl

theorem randSample_some_facts {α : Type} [BEq α] [LawfulBEq α] :
    ∀ (k : ℕ) (l : List α) (s : ℕ → ℕ) (r : List α),
      randSample l k s = some r →
      r.length = k ∧ (∀ a ∈ r, a ∈ l) ∧ (l.Nodup → r.Nodup) := by
  intro k
  induction k with
  | zero =>
    intro l s r h
    simp only [randSample, Option.some.injEq] at h
    subst h
    simp
  | succ k ih =>
    intro l s r h
    cases hg : l[s 0 % l.length]? with
    | none =>
      simp only [randSample, hg] at h
      exact Option.noConfusion h
    | some a =>
      simp only [randSample, hg] at h
      cases hr : randSample (l.erase a) k (fun n => s (n+1)) with
      | none => rw [hr] at h; cases h
      | some r' =>
        rw [hr] at h
        simp only [Option.map_some', Option.some.injEq] at h
        subst h
        have ha : a ∈ l := List.getElem?_mem hg
        obtain ⟨hlen, hmem, hnd⟩ := ih (l.erase a) _ r' hr
        refine ⟨by simp [hlen], ?_, ?_⟩
        · intro x hx
          cases List.mem_cons.mp hx with
          | inl hh => exact hh ▸ ha
          | inr hh => exact List.erase_subset _ _ (hmem x hh)
        · intro hl
          refine List.nodup_cons.mpr ⟨?_, hnd (hl.erase a)⟩
          intro hcon
          exact hl.not_mem_erase (hmem a hcon)

theorem randSample_some_of_le {α : Type} [BEq α] [LawfulBEq α] :
    ∀ (k : ℕ) (l : List α) (s : ℕ → ℕ), k ≤ l.length →
      ∃ r, randSample l k s = some r := by
  intro k
  induction k with
  | zero => intro l s _; exact ⟨[], rfl⟩
  | succ k ih =>
    intro l s hk
    have hpos : 0 < l.length := by omega
    have hlt : s 0 % l.length < l.length := Nat.mod_lt _ hpos
    have hg : l[s 0 % l.length]? = some (l.get ⟨s 0 % l.length, hlt⟩) :=
      List.getElem?_eq_getElem hlt
    have ha : l.get ⟨s 0 % l.length, hlt⟩ ∈ l := List.get_mem l _ _
    have hel : (l.erase (l.get ⟨s 0 % l.length, hlt⟩)).length = l.length - 1 :=
      List.length_erase_of_mem ha
    obtain ⟨r', hr'⟩ := ih (l.erase (l.get ⟨s 0 % l.length, hlt⟩))
      (fun n => s (n+1)) (by omega)
    refine ⟨l.get ⟨s 0 % l.length, hlt⟩ :: r', ?_⟩
    simp only [randSample, hg, hr']
    rfl

theorem drawShuffle_perm {α : Type} [BEq α] [LawfulBEq α] :
    ∀ (k : ℕ) (l : List α) (s : ℕ → ℕ), l.length = k →
      (drawShuffle k s l).Perm l := by
  intro k
  induction k with
  | zero =>
    intro l s h
    rw [List.length_eq_zero] at h
    subst h
    rfl
  | succ k ih =>
    intro l s h
    have hpos : 0 < l.length := by omega
    have hlt : s 0 % l.length < l.length := Nat.mod_lt _ hpos
    have hg : l[s 0 % l.length]? = some (l.get ⟨s 0 % l.length, hlt⟩) :=
      List.getElem?_eq_getElem hlt
    have ha : l.get ⟨s 0 % l.length, hlt⟩ ∈ l := List.get_mem l _ _
    have hel : (l.erase (l.get ⟨s 0 % l.length, hlt⟩)).length = k := by
      rw [List.length_erase_of_mem ha]; omega
    have := ih (l.erase (l.get ⟨s 0 % l.length, hlt⟩)) (fun n => s (n+1)) hel
    simp only [drawShuffle, hg]
    exact (this.cons _).trans (perm_cons_erase_beq ha).symm

theorem shuffle_perm {α : Type} [BEq α] [LawfulBEq α] (l : List α)
    (s : ℕ → ℕ) : (shuffle l s).Perm l :=
  drawShuffle_perm l.length l s rfl

/-! ## Helper lemmas about the available-index list -/

theorem mem_availableIndices {pool : List Record} {used : Finset ℕ} {i : ℕ} :
    i ∈ availableIndices pool used ↔ i < pool.length ∧ i ∉ used := by
  simp [availableIndices, List.mem_filter, List.mem_range]

theorem availableIndices_nodup (pool : List Record) (used : Finset ℕ) :
    (availableIndices pool used).Nodup :=
  (List.nodup_range _).filter _

theorem length_filter_ne {l : List ℕ} (hn : l.Nodup) {c : ℕ} (hc : c ∈ l) :
    (l.filter (fun i => i != c)).length = l.length - 1 := by
  rw [← List.Nodup.erase_eq_filter hn, List.length_erase_of_mem hc]

theorem indexOf_facts {α : Type} [BEq α] [LawfulBEq α] {a : α} :
    ∀ {l : List α}, a ∈ l →
      l.indexOf a < l.length ∧ l.get? (l.indexOf a) = some a := by
  intro l
  induction l with
  | nil => intro h; cases h
  | cons b t ih =>
    intro h
    by_cases hba : b = a
    · subst hba
      have h0 : (b :: t).indexOf b = 0 := by
        simp [List.indexOf_cons]
      rw [h0]
      exact ⟨Nat.succ_pos _, rfl⟩
    · have hbeq : (b == a) = false := by
        simp [hba]
      have hstep : (b :: t).indexOf a = t.indexOf a + 1 := by
        simp [List.indexOf_cons, hbeq]
      have hat : a ∈ t := by
        cases List.mem_cons.mp h with
        | inl hh => exact absurd hh.symm hba
        | inr hh => exact hh
      obtain ⟨ih1, ih2⟩ := ih hat
      rw [hstep]
      exact ⟨Nat.succ_lt_succ ih1, ih2⟩

theorem randSampleZ_some_of_le {α : Type} [BEq α] [LawfulBEq α] {l : List α}
    {z : ℤ} (h0 : 0 ≤ z) (hle : z.toNat ≤ l.length) (s : ℕ → ℕ) :
    ∃ r, randSampleZ l z s = some r := by
  obtain ⟨r, hr⟩ := randSample_some_of_le z.toNat l s hle
  exact ⟨r, by simp only [randSampleZ, if_neg (not_lt.mpr h0), hr]⟩

theorem randSampleZ_some_inv {α : Type} [BEq α] [LawfulBEq α] {l : List α}
    {z : ℤ} {s : ℕ → ℕ} {r : List α} (h : randSampleZ l z s = some r) :
    0 ≤ z ∧ randSample l z.toNat s = some r := by
  by_cases hz : z < 0
  · simp only [randSampleZ, if_pos hz] at h
    exact Option.noConfusion h
  · simp only [randSampleZ, if_neg hz] at h
    exact ⟨not_lt.mp hz, h⟩

theorem randChoice_none_inv {α : Type} {l : List α} {s : ℕ}
    (h : randChoice l s = none) : l = [] := by
  by_contra hne
  have hpos : 0 < l.length := List.length_pos.mpr hne
  have hlt : s % l.length < l.length := Nat.mod_lt _ hpos
  rw [randChoice, List.getElem?_eq_getElem hlt] at h
  exact Option.noConfusion h

/-! ## Outcome case analysis for the three builders -/

theorem gdq_cases (pool : List Record) (used : Finset ℕ) (k : ℕ) (cs : ℕ)
    (ds ss : ℕ → ℕ) :
    ((availableIndices pool used).length < k ∧
      generate_definition_question pool used k cs ds ss =
        (GenResult.insufficient, used)) ∨
    (¬ (availableIndices pool used).length < k ∧
      randChoice (availableIndices pool used) cs = none ∧
      generate_definition_question pool used k cs ds ss =
        (GenResult.error, used)) ∨
    (∃ c, ¬ (availableIndices pool used).length < k ∧
      randChoice (availableIndices pool used) cs = some c ∧
      ((randSampleZ ((availableIndices pool used).filter (fun i => i != c))
          ((k : ℤ) - 1) ds = none ∧
        generate_definition_question pool used k cs ds ss =
          (GenResult.error, insert c used)) ∨
       (∃ d, randSampleZ ((availableIndices pool used).filter (fun i => i != c))
          ((k : ℤ) - 1) ds = some d ∧
        generate_definition_question pool used k cs ds ss =
          (GenResult.ok ⟨defPrompt (recAt pool c).term,
            shuffle ((recAt pool c).definition ::
              d.map (fun i => (recAt pool i).definition)) ss,
            toString ((shuffle ((recAt pool c).definition ::
              d.map (fun i => (recAt pool i).definition)) ss).indexOf
                (recAt pool c).definition + 1)⟩,
           insert c used)))) := by
  by_cases hg : (availableIndices pool used).length < k
  · exact Or.inl ⟨hg, by simp only [generate_definition_question, if_pos hg]⟩
  · cases hc : randChoice (availableIndices pool used) cs with
    | none =>
      refine Or.inr (Or.inl ⟨hg, rfl, ?_⟩)
      simp only [generate_definition_question, hc, if_neg hg]
    | some c =>
      cases hs : randSampleZ ((availableIndices pool used).filter
          (fun i => i != c)) ((k : ℤ) - 1) ds with
      | none =>
        refine Or.inr (Or.inr ⟨c, hg, rfl, Or.inl ⟨hs, ?_⟩⟩)
        simp only [generate_definition_question, hc, hs, if_neg hg]
      | some d =>
        refine Or.inr (Or.inr ⟨c, hg, rfl, Or.inr ⟨d, hs, ?_⟩⟩)
        simp only [generate_definition_question, hc, hs, if_neg hg]

theorem gtq_cases (pool : List Record) (used : Finset ℕ) (k : ℕ) (cs : ℕ)
    (ds ss : ℕ → ℕ) :
    ((availableIndices pool used).length < k ∧
      generate_term_question pool used k cs ds ss =
        (GenResult.insufficient, used)) ∨
    (¬ (availableIndices pool used).length < k ∧
      randChoice (availableIndices pool used) cs = none ∧
      generate_term_question pool used k cs ds ss =
        (GenResult.error, used)) ∨
    (∃ c, ¬ (availableIndices pool used).length < k ∧
      randChoice (availableIndices pool used) cs = some c ∧
      ((randSampleZ ((availableIndices pool used).filter (fun i => i != c))
          ((k : ℤ) - 1) ds = none ∧
        generate_term_question pool used k cs ds ss =
          (GenResult.error, insert c used)) ∨
       (∃ d, randSampleZ ((availableIndices pool used).filter (fun i => i != c))
          ((k : ℤ) - 1) ds = some d ∧
        generate_term_question pool used k cs ds ss =
          (GenResult.ok ⟨termPrompt (recAt pool c).definition,
            shuffle ((recAt pool c).term ::
              d.map (fun i => (recAt pool i).term)) ss,
            toString ((shuffle ((recAt pool c).term ::
              d.map (fun i => (recAt pool i).term)) ss).indexOf
                (recAt pool c).term + 1)⟩,
           insert c used)))) := by
  by_cases hg : (availableIndices pool used).length < k
  · exact Or.inl ⟨hg, by simp only [generate_term_question, if_pos hg]⟩
  · cases hc : randChoice (availableIndices pool used) cs with
    | none =>
      refine Or.inr (Or.inl ⟨hg, rfl, ?_⟩)
      simp only [generate_term_question, hc, if_neg hg]
    | some c =>
      cases hs : randSampleZ ((availableIndices pool used).filter
          (fun i => i != c)) ((k : ℤ) - 1) ds with
      | none =>
        refine Or.inr (Or.inr ⟨c, hg, rfl, Or.inl ⟨hs, ?_⟩⟩)
        simp only [generate_term_question, hc, hs, if_neg hg]
      | some d =>
        refine Or.inr (Or.inr ⟨c, hg, rfl, Or.inr ⟨d, hs, ?_⟩⟩)
        simp only [generate_term_question, hc, hs, if_neg hg]

theorem gtf_cases (pool : List Record) (used : Finset ℕ) (coin : Bool)
    (cs ws : ℕ) :
    ((availableIndices pool used).isEmpty = true ∧
      generate_tf_question pool used coin cs ws =
        (GenResult.insufficient, used)) ∨
    (¬ (availableIndices pool used).isEmpty = true ∧
      randChoice (availableIndices pool used) cs = none ∧
      generate_tf_question pool used coin cs ws = (GenResult.error, used)) ∨
    (∃ c, ¬ (availableIndices pool used).isEmpty = true ∧
      randChoice (availableIndices pool used) cs = some c ∧
      ((coin = true ∧
        generate_tf_question pool used coin cs ws =
          (GenResult.ok ⟨tfPrompt (recAt pool c).term (recAt pool c).definition,
            ["True", "False"], "1"⟩, insert c used)) ∨
       (coin = false ∧
        randChoice ((availableIndices pool used).filter (fun i => i != c)) ws =
          none ∧
        generate_tf_question pool used coin cs ws =
          (GenResult.error, insert c used)) ∨
       (∃ w, coin = false ∧
        randChoice ((availableIndices pool used).filter (fun i => i != c)) ws =
          some w ∧
        generate_tf_question pool used coin cs ws =
          (GenResult.ok ⟨tfPrompt (recAt pool c).term (recAt pool w).definition,
            ["True", "False"], "2"⟩, insert c used)))) := by
  by_cases hg : (availableIndices pool used).isEmpty = true
  · exact Or.inl ⟨hg, by simp only [generate_tf_question, if_pos hg]⟩
  · cases hc : randChoice (availableIndices pool used) cs with
    | none =>
      refine Or.inr (Or.inl ⟨hg, rfl, ?_⟩)
      simp only [generate_tf_question, hc, if_neg hg]
    | some c =>
      cases coin with
      | true =>
        refine Or.inr (Or.inr ⟨c, hg, rfl, Or.inl ⟨rfl, ?_⟩⟩)
        simp only [generate_tf_question, hc, if_neg hg, if_pos]
      | false =>
        cases hw : randChoice ((availableIndices pool used).filter
            (fun i => i != c)) ws with
        | none =>
          refine Or.inr (Or.inr ⟨c, hg, rfl, Or.inr (Or.inl ⟨rfl, hw, ?_⟩)⟩)
          simp only [generate_tf_question, hc, hw, if_neg hg]
          rfl
        | some w =>
          refine Or.inr (Or.inr ⟨c, hg, rfl, Or.inr (Or.inr ⟨w, rfl, hw, ?_⟩)⟩)
          simp only [generate_tf_question, hc, hw, if_neg hg]
          rfl

/-! ## Derived facts about the builders -/

theorem gdq_insufficient_inv {pool : List Record} {used : Finset ℕ} {k cs : ℕ}
    {ds ss : ℕ → ℕ}
    (h : (generate_definition_question pool used k cs ds ss).1 =
      GenResult.insufficient) :
    (availableIndices pool used).length < k ∧
      (generate_definition_question pool used k cs ds ss).2 = used := by
  rcases gdq_cases pool used k cs ds ss with
    ⟨hg, he⟩ | ⟨hg, hc, he⟩ | ⟨c, hg, hc, ⟨hs, he⟩ | ⟨d, hs, he⟩⟩
  · exact ⟨hg, by rw [he]⟩
  · rw [he] at h; exact absurd h (by simp)
  · rw [he] at h; exact absurd h (by simp)
  · rw [he] at h; exact absurd h (by simp)

theorem gtq_insufficient_inv {pool : List Record} {used : Finset ℕ} {k cs : ℕ}
    {ds ss : ℕ → ℕ}
    (h : (generate_term_question pool used k cs ds ss).1 =
      GenResult.insufficient) :
    (availableIndices pool used).length < k ∧
      (generate_term_question pool used k cs ds ss).2 = used := by
  rcases gtq_cases pool used k cs ds ss with
    ⟨hg, he⟩ | ⟨hg, hc, he⟩ | ⟨c, hg, hc, ⟨hs, he⟩ | ⟨d, hs, he⟩⟩
  · exact ⟨hg, by rw [he]⟩
  · rw [he] at h; exact absurd h (by simp)
  · rw [he] at h; exact absurd h (by simp)
  · rw [he] at h; exact absurd h (by simp)

theorem gtf_insufficient_inv {pool : List Record} {used : Finset ℕ}
    {coin : Bool} {cs ws : ℕ}
    (h : (generate_tf_question pool used coin cs ws).1 =
      GenResult.insufficient) :
    (availableIndices pool used).isEmpty = true ∧
      (generate_tf_question pool used coin cs ws).2 = used := by
  rcases gtf_cases pool used coin cs ws with
    ⟨hg, he⟩ | ⟨hg, hc, he⟩ |
    ⟨c, hg, hc, ⟨hco, he⟩ | ⟨hco, hw, he⟩ | ⟨w, hco, hw, he⟩⟩
  · exact ⟨hg, by rw [he]⟩
  · rw [he] at h; exact absurd h (by simp)
  · rw [he] at h; exact absurd h (by simp)
  · rw [he] at h; exact absurd h (by simp)
  · rw [he] at h; exact absurd h (by simp)

theorem gdq_ok_inv {pool : List Record} {used : Finset ℕ} {k cs : ℕ}
    {ds ss : ℕ → ℕ} {q : Question} {u' : Finset ℕ}
    (h : generate_definition_question pool used k cs ds ss =
      (GenResult.ok q, u')) :
    ∃ c d, ¬ (availableIndices pool used).length < k ∧
      randChoice (availableIndices pool used) cs = some c ∧
      randSampleZ ((availableIndices pool used).filter (fun i => i != c))
        ((k : ℤ) - 1) ds = some d ∧
      u' = insert c used ∧
      q = ⟨defPrompt (recAt pool c).term,
        shuffle ((recAt pool c).definition ::
          d.map (fun i => (recAt pool i).definition)) ss,
        toString ((shuffle ((recAt pool c).definition ::
          d.map (fun i => (recAt pool i).definition)) ss).indexOf
            (recAt pool c).definition + 1)⟩ := by
  rcases gdq_cases pool used k cs ds ss with
    ⟨hg, he⟩ | ⟨hg, hc, he⟩ | ⟨c, hg, hc, ⟨hs, he⟩ | ⟨d, hs, he⟩⟩
  · rw [he] at h; simp at h
  · rw [he] at h; simp at h
  · rw [he] at h; simp at h
  · rw [he] at h
    simp only [Prod.mk.injEq, GenResult.ok.injEq] at h
    exact ⟨c, d, hg, hc, hs, h.2.symm, h.1.symm⟩

theorem gtq_ok_inv {pool : List Record} {used : Finset ℕ} {k cs : ℕ}
    {ds ss : ℕ → ℕ} {q : Question} {u' : Finset ℕ}
    (h : generate_term_question pool used k cs ds ss = (GenResult.ok q, u')) :
    ∃ c d, ¬ (availableIndices pool used).length < k ∧
      randChoice (availableIndices pool used) cs = some c ∧
      randSampleZ ((availableIndices pool used).filter (fun i => i != c))
        ((k : ℤ) - 1) ds = some d ∧
      u' = insert c used ∧
      q = ⟨termPrompt (recAt pool c).definition,
        shuffle ((recAt pool c).term ::
          d.map (fun i => (recAt pool i).term)) ss,
        toString ((shuffle ((recAt pool c).term ::
          d.map (fun i => (recAt pool i).term)) ss).indexOf
            (recAt pool c).term + 1)⟩ := by
  rcases gtq_cases pool used k cs ds ss with
    ⟨hg, he⟩ | ⟨hg, hc, he⟩ | ⟨c, hg, hc, ⟨hs, he⟩ | ⟨d, hs, he⟩⟩
  · rw [he] at h; simp at h
  · rw [he] at h; simp at h
  · rw [he] at h; simp at h
  · rw [he] at h
    simp only [Prod.mk.injEq, GenResult.ok.injEq] at h
    exact ⟨c, d, hg, hc, hs, h.2.symm, h.1.symm⟩

theorem gtf_ok_inv {pool : List Record} {used : Finset ℕ} {coin : Bool}
    {cs ws : ℕ} {q : Question} {u' : Finset ℕ}
    (h : generate_tf_question pool used coin cs ws = (GenResult.ok q, u')) :
    ∃ c, randChoice (availableIndices pool used) cs = some c ∧
      u' = insert c used ∧ q.options = ["True", "False"] ∧
      ((coin = true ∧
        q.prompt = tfPrompt (recAt pool c).term (recAt pool c).definition ∧
        q.correct_label = "1") ∨
       (∃ w, coin = false ∧
        randChoice ((availableIndices pool used).filter (fun i => i != c)) ws =
          some w ∧
        q.prompt = tfPrompt (recAt pool c).term (recAt pool w).definition ∧
        q.correct_label = "2")) := by
  rcases gtf_cases pool used coin cs ws with
    ⟨hg, he⟩ | ⟨hg, hc, he⟩ |
    ⟨c, hg, hc, ⟨hco, he⟩ | ⟨hco, hw, he⟩ | ⟨w, hco, hw, he⟩⟩
  · rw [he] at h; simp at h
  · rw [he] at h; simp at h
  · rw [he] at h
    simp only [Prod.mk.injEq, GenResult.ok.injEq] at h
    refine ⟨c, hc, h.2.symm, ?_, Or.inl ⟨hco, ?_, ?_⟩⟩ <;>
      rw [← h.1]
  · rw [he] at h; simp at h
  · rw [he] at h
    simp only [Prod.mk.injEq, GenResult.ok.injEq] at h
    refine ⟨c, hc, h.2.symm, ?_, Or.inr ⟨w, hco, hw, ?_, ?_⟩⟩ <;>
      rw [← h.1]

theorem gdq_guard {pool : List Record} {used : Finset ℕ} {k : ℕ}
    (h : (availableIndices pool used).length < k) (cs : ℕ) (ds ss : ℕ → ℕ) :
    generate_definition_question pool used k cs ds ss =
      (GenResult.insufficient, used) := by
  simp only [generate_definition_question, if_pos h]

theorem gtq_guard {pool : List Record} {used : Finset ℕ} {k : ℕ}
    (h : (availableIndices pool used).length < k) (cs : ℕ) (ds ss : ℕ → ℕ) :
    generate_term_question pool used k cs ds ss =
      (GenResult.insufficient, used) := by
  simp only [generate_term_question, if_pos h]

theorem gdq_ok_of_le {pool : List Record} {used : Finset ℕ} {k : ℕ}
    (hk : 1 ≤ k) (hlen : k ≤ (availableIndices pool used).length)
    (cs : ℕ) (ds ss : ℕ → ℕ) :
    ∃ q u', generate_definition_question pool used k cs ds ss =
      (GenResult.ok q, u') := by
  rcases gdq_cases pool used k cs ds ss with
    ⟨hg, he⟩ | ⟨hg, hc, he⟩ | ⟨c, hg, hc, ⟨hs, he⟩ | ⟨d, hs, he⟩⟩
  · omega
  · have hnil := randChoice_none_inv hc
    have h0 : (availableIndices pool used).length = 0 := by rw [hnil]; rfl
    omega
  · have hcm := randChoice_mem hc
    have hfl := length_filter_ne (availableIndices_nodup pool used) hcm
    have h0 : (0 : ℤ) ≤ (k : ℤ) - 1 := by omega
    have htn : ((k : ℤ) - 1).toNat ≤
        ((availableIndices pool used).filter (fun i => i != c)).length := by
      rw [hfl]; omega
    obtain ⟨r, hr⟩ := randSampleZ_some_of_le h0 htn ds
    rw [hs] at hr
    exact Option.noConfusion hr
  · exact ⟨_, _, he⟩

theorem gtq_ok_of_le {pool : List Record} {used : Finset ℕ} {k : ℕ}
    (hk : 1 ≤ k) (hlen : k ≤ (availableIndices pool used).length)
    (cs : ℕ) (ds ss : ℕ → ℕ) :
    ∃ q u', generate_term_question pool used k cs ds ss =
      (GenResult.ok q, u') := by
  rcases gtq_cases pool used k cs ds ss with
    ⟨hg, he⟩ | ⟨hg, hc, he⟩ | ⟨c, hg, hc, ⟨hs, he⟩ | ⟨d, hs, he⟩⟩
  · omega
  · have hnil := randChoice_none_inv hc
    have h0 : (availableIndices pool used).length = 0 := by rw [hnil]; rfl
    omega
  · have hcm := randChoice_mem hc
    have hfl := length_filter_ne (availableIndices_nodup pool used) hcm
    have h0 : (0 : ℤ) ≤ (k : ℤ) - 1 := by omega
    have htn : ((k : ℤ) - 1).toNat ≤
        ((availableIndices pool used).filter (fun i => i != c)).length := by
      rw [hfl]; omega
    obtain ⟨r, hr⟩ := randSampleZ_some_of_le h0 htn ds
    rw [hs] at hr
    exact Option.noConfusion hr
  · exact ⟨_, _, he⟩

/-! ## Session-level lemmas -/

theorem stepGen_ok_inv {pool : List Record} {used : Finset ℕ} {s : Step}
    {q : Question} {u' : Finset ℕ}
    (h : Step.gen pool used s = (GenResult.ok q, u')) :
    ∃ c, randChoice (availableIndices pool used) (Step.cSeed s) = some c ∧
      c ∉ used ∧ c < pool.length ∧ u' = insert c used := by
  cases s with
  | defQ k cs ds ss a =>
    obtain ⟨c, d, hg, hc, hs, hu, hq⟩ := gdq_ok_inv h
    have hm := mem_availableIndices.mp (randChoice_mem hc)
    exact ⟨c, hc, hm.2, hm.1, hu⟩
  | termQ k cs ds ss a =>
    obtain ⟨c, d, hg, hc, hs, hu, hq⟩ := gtq_ok_inv h
    have hm := mem_availableIndices.mp (randChoice_mem hc)
    exact ⟨c, hc, hm.2, hm.1, hu⟩
  | tfQ coin cs ws a =>
    obtain ⟨c, hc, hu, hopt, hrest⟩ := gtf_ok_inv h
    have hm := mem_availableIndices.mp (randChoice_mem hc)
    exact ⟨c, hc, hm.2, hm.1, hu⟩

theorem stepGen_used_shape (pool : List Record) (used : Finset ℕ) (s : Step) :
    (Step.gen pool used s).2 = used ∨
    ∃ c, c ∉ used ∧ (Step.gen pool used s).2 = insert c used := by
  cases s with
  | defQ k cs ds ss a =>
    rcases gdq_cases pool used k cs ds ss with
      ⟨hg, he⟩ | ⟨hg, hc, he⟩ | ⟨c, hg, hc, ⟨hs, he⟩ | ⟨d, hs, he⟩⟩ <;>
      simp only [Step.gen, he]
    · exact Or.inl trivial
    · exact Or.inl trivial
    · exact Or.inr ⟨c, (mem_availableIndices.mp (randChoice_mem hc)).2, rfl⟩
    · exact Or.inr ⟨c, (mem_availableIndices.mp (randChoice_mem hc)).2, rfl⟩
  | termQ k cs ds ss a =>
    rcases gtq_cases pool used k cs ds ss with
      ⟨hg, he⟩ | ⟨hg, hc, he⟩ | ⟨c, hg, hc, ⟨hs, he⟩ | ⟨d, hs, he⟩⟩ <;>
      simp only [Step.gen, he]
    · exact Or.inl trivial
    · exact Or.inl trivial
    · exact Or.inr ⟨c, (mem_availableIndices.mp (randChoice_mem hc)).2, rfl⟩
    · exact Or.inr ⟨c, (mem_availableIndices.mp (randChoice_mem hc)).2, rfl⟩
  | tfQ coin cs ws a =>
    rcases gtf_cases pool used coin cs ws with
      ⟨hg, he⟩ | ⟨hg, hc, he⟩ |
      ⟨c, hg, hc, ⟨hco, he⟩ | ⟨hco, hw, he⟩ | ⟨w, hco, hw, he⟩⟩ <;>
      simp only [Step.gen, he]
    · exact Or.inl trivial
    · exact Or.inl trivial
    · exact Or.inr ⟨c, (mem_availableIndices.mp (randChoice_mem hc)).2, rfl⟩
    · exact Or.inr ⟨c, (mem_availableIndices.mp (randChoice_mem hc)).2, rfl⟩
    · exact Or.inr ⟨c, (mem_availableIndices.mp (randChoice_mem hc)).2, rfl⟩

theorem doStep_used (pool : List Record) (st : SessionState) (s : Step) :
    (doStep pool st s).used = (Step.gen pool st.used s).2 := by
  cases hg : Step.gen pool st.used s with
  | mk r u2 => cases r <;> simp [doStep, hg]

theorem doStep_used_mono (pool : List Record) (st : SessionState) (s : Step) :
    st.used ⊆ (doStep pool st s).used := by
  rw [doStep_used]
  rcases stepGen_used_shape pool st.used s with h | ⟨c, hc, h⟩
  · rw [h]
  · rw [h]; exact Finset.subset_insert c st.used

theorem runSteps_cons (pool : List Record) (st : SessionState) (s : Step)
    (l : List Step) :
    runSteps pool st (s :: l) = runSteps pool (doStep pool st s) l := rfl

theorem runSteps_used_mono (pool : List Record) (st : SessionState)
    (l : List Step) : st.used ⊆ (runSteps pool st l).used := by
  induction l generalizing st with
  | nil => exact Finset.Subset.refl st.used
  | cons s t ih =>
    rw [runSteps_cons]
    exact (doStep_used_mono pool st s).trans (ih (doStep pool st s))

theorem doStep_ok_counts {pool : List Record} {st : SessionState} {s : Step}
    {q : Question} {u' : Finset ℕ}
    (h : Step.gen pool st.used s = (GenResult.ok q, u')) :
    (doStep pool st s).total = st.total + 1 ∧
    (doStep pool st s).score =
      (if Step.answer s = q.correct_label then st.score + 1 else st.score) := by
  simp [doStep, h]

theorem doStep_score_le (pool : List Record) (st : SessionState) (s : Step)
    (h : st.score ≤ st.total) :
    (doStep pool st s).score ≤ (doStep pool st s).total := by
  cases hg : Step.gen pool st.used s with
  | mk r u2 =>
    cases r with
    | ok q =>
      simp only [doStep, hg]
      split <;> omega
    | insufficient => simpa [doStep, hg] using h
    | error => simpa [doStep, hg] using h

theorem runSteps_score_le (pool : List Record) (st : SessionState)
    (l : List Step) (h : st.score ≤ st.total) :
    (runSteps pool st l).score ≤ (runSteps pool st l).total := by
  induction l generalizing st with
  | nil => exact h
  | cons s t ih =>
    rw [runSteps_cons]
    exact ih (doStep pool st s) (doStep_score_le pool st s h)

/-! ## Claim theorems -/

/-- C1: the claim states that the True/False builder fails only when no
index is available, and must produce a question even when exactly one
available index remains, regardless of the coin-flip polarity.  At the
concrete input below exactly one index (1) is available, yet with False
polarity the source reaches `random.choice([i for i in available_indices
if i != correct_idx])` on an empty list, an uncaught IndexError
(`GenResult.error`), instead of producing a question. -/
theorem C1_single_available_false_polarity_crashes :
    availableIndices samplePool {0, 2, 3} = [1] ∧
    (generate_tf_question samplePool {0, 2, 3} false 0 0).1 =
      GenResult.error := by
  exact ⟨rfl, rfl⟩

/-- C2 counterexample: at requested choice count k = 0 the number of
available indices (4) is not below k, so the claim demands a question;
but the source calls `random.sample(..., num_choices - 1)` with count
-1, which raises ValueError (`GenResult.error`), in both choice
builders. -/
theorem C2_zero_count_raises :
    0 ≤ (availableIndices samplePool ∅).length ∧
    (generate_definition_question samplePool ∅ 0 0 (fun _ => 0)
      (fun _ => 0)).1 = GenResult.error ∧
    (generate_term_question samplePool ∅ 0 0 (fun _ => 0)
      (fun _ => 0)).1 = GenResult.error :=
  ⟨Nat.zero_le _, rfl, rfl⟩

/-- C2 (amended: for requested choice count k ≥ 1, as in the program
where the preference gate enforces k ≥ 2): the definition-choice and
term-choice builders return the insufficient `None` iff strictly fewer
than k indices are available, and produce a question whenever at least
k indices are available. -/
theorem C2_insufficient_iff_amended :
    ∀ (pool : List Record) (used : Finset ℕ) (k cs : ℕ) (ds ss : ℕ → ℕ),
      1 ≤ k →
      (((generate_definition_question pool used k cs ds ss).1 =
          GenResult.insufficient ↔ (availableIndices pool used).length < k) ∧
        (k ≤ (availableIndices pool used).length →
          ∃ q u', generate_definition_question pool used k cs ds ss =
            (GenResult.ok q, u'))) ∧
      (((generate_term_question pool used k cs ds ss).1 =
          GenResult.insufficient ↔ (availableIndices pool used).length < k) ∧
        (k ≤ (availableIndices pool used).length →
          ∃ q u', generate_term_question pool used k cs ds ss =
            (GenResult.ok q, u'))) := by
  intro pool used k cs ds ss hk
  refine ⟨⟨⟨fun h => (gdq_insufficient_inv h).1, fun h => ?_⟩,
      fun h => gdq_ok_of_le hk h cs ds ss⟩,
    ⟨⟨fun h => (gtq_insufficient_inv h).1, fun h => ?_⟩,
      fun h => gtq_ok_of_le hk h cs ds ss⟩⟩
  · rw [gdq_guard h cs ds ss]
  · rw [gtq_guard h cs ds ss]

/-- Witness for C2: on the four-record pool with nothing used and k = 2,
the insufficiency equivalence holds and a question is produced. -/
theorem C2_witness :
    ((generate_definition_question samplePool ∅ 2 0 (fun _ => 0)
        (fun _ => 0)).1 = GenResult.insufficient ↔
      (availableIndices samplePool ∅).length < 2) ∧
    (∃ q u', generate_definition_question samplePool ∅ 2 0 (fun _ => 0)
      (fun _ => 0) = (GenResult.ok q, u')) :=
  ⟨(C2_insufficient_iff_amended samplePool ∅ 2 0 (fun _ => 0) (fun _ => 0)
      (by decide)).1.1,
   (C2_insufficient_iff_amended samplePool ∅ 2 0 (fun _ => 0) (fun _ => 0)
      (by decide)).1.2 (by decide)⟩

/-- C10: whenever any of the three builders returns the deliberate
`None` (insufficient or empty available pool), the used-index set is
left completely unchanged: the sufficiency check happens before any
index is inserted. -/
theorem C10_insufficient_leaves_used_unchanged :
    (∀ (pool : List Record) (used : Finset ℕ) (k cs : ℕ) (ds ss : ℕ → ℕ),
      (generate_definition_question pool used k cs ds ss).1 =
        GenResult.insufficient →
      (generate_definition_question pool used k cs ds ss).2 = used) ∧
    (∀ (pool : List Record) (used : Finset ℕ) (k cs : ℕ) (ds ss : ℕ → ℕ),
      (generate_term_question pool used k cs ds ss).1 =
        GenResult.insufficient →
      (generate_term_question pool used k cs ds ss).2 = used) ∧
    (∀ (pool : List Record) (used : Finset ℕ) (coin : Bool) (cs ws : ℕ),
      (generate_tf_question pool used coin cs ws).1 =
        GenResult.insufficient →
      (generate_tf_question pool used coin cs ws).2 = used) :=
  ⟨fun _ _ _ _ _ _ h => (gdq_insufficient_inv h).2,
   fun _ _ _ _ _ _ h => (gtq_insufficient_inv h).2,
   fun _ _ _ _ _ h => (gtf_insufficient_inv h).2⟩

/-- Witness for C10: with index 0 already used only three indices remain,
too few for a four-choice question; the used set {0} is returned
untouched. -/
theorem C10_witness :
    (generate_definition_question samplePool {0} 4 0 (fun _ => 0)
      (fun _ => 0)).2 = {0} :=
  C10_insufficient_leaves_used_unchanged.1 samplePool {0} 4 0 (fun _ => 0)
    (fun _ => 0) (by decide)

/-- C4: within one session the used-index set only grows, the correct
index inserted by a successful generator call was not yet used (so an
index enters the set at most once), and any index already used before
some steps ran is never selected again as the correct answer by a later
generator call, because candidates are filtered through the used set. -/
theorem C4_used_only_grows :
    (∀ (pool : List Record) (st : SessionState) (s : Step),
      st.used ⊆ (doStep pool st s).used) ∧
    (∀ (pool : List Record) (st : SessionState) (l : List Step),
      st.used ⊆ (runSteps pool st l).used) ∧
    (∀ (pool : List Record) (used : Finset ℕ) (s : Step) (q : Question)
        (u' : Finset ℕ), Step.gen pool used s = (GenResult.ok q, u') →
      ∃ c, randChoice (availableIndices pool used) (Step.cSeed s) = some c ∧
        c ∉ used ∧ u' = insert c used) ∧
    (∀ (pool : List Record) (st : SessionState) (l : List Step) (s : Step)
        (i c : ℕ), i ∈ st.used →
      randChoice (availableIndices pool (runSteps pool st l).used)
        (Step.cSeed s) = some c →
      c ∉ (runSteps pool st l).used ∧ c ≠ i) := by
  refine ⟨doStep_used_mono, runSteps_used_mono, ?_, ?_⟩
  · intro pool used s q u' h
    obtain ⟨c, hc, hnu, hlt, hu⟩ := stepGen_ok_inv h
    exact ⟨c, hc, hnu, hu⟩
  · intro pool st l s i c hi hc
    have hcm := mem_availableIndices.mp (randChoice_mem hc)
    have hmono := runSteps_used_mono pool st l
    exact ⟨hcm.2, fun hci => hcm.2 (hci ▸ hmono hi)⟩

/-- Witness for C4: starting with index 0 used, a later True/False step
draws index 1, which is unused, distinct from 0, and the used set of a
one-step session contains the initial set. -/
theorem C4_witness :
    (({0} : Finset ℕ) ⊆
      (runSteps samplePool ⟨0, 0, {0}⟩
        [Step.defQ 2 0 (fun _ => 0) (fun _ => 0) "1"]).used) ∧
    (1 ∉ (runSteps samplePool ⟨0, 0, {0}⟩ []).used ∧ 1 ≠ 0) :=
  ⟨C4_used_only_grows.2.1 samplePool ⟨0, 0, {0}⟩
      [Step.defQ 2 0 (fun _ => 0) (fun _ => 0) "1"],
   C4_used_only_grows.2.2.2 samplePool ⟨0, 0, {0}⟩ [] (Step.tfQ true 0 0 "1")
      0 1 (by decide) (by decide)⟩

/-- C9: for every answered question the answered total increases by
exactly one and the score increases by one exactly when the given answer
equals the correct label (by at most one in any case); starting from
score 0, total 0, every session satisfies score ≤ total. -/
theorem C9_score_invariant :
    (∀ (pool : List Record) (st : SessionState) (s : Step) (q : Question)
        (u' : Finset ℕ), Step.gen pool st.used s = (GenResult.ok q, u') →
      (doStep pool st s).total = st.total + 1 ∧
      ((doStep pool st s).score = st.score + 1 ↔
        Step.answer s = q.correct_label) ∧
      ((doStep pool st s).score = st.score ∨
        (doStep pool st s).score = st.score + 1)) ∧
    initialState.score = 0 ∧ initialState.total = 0 ∧
    (∀ (pool : List Record) (l : List Step),
      (runSteps pool initialState l).score ≤
        (runSteps pool initialState l).total) := by
  refine ⟨?_, rfl, rfl, ?_⟩
  · intro pool st s q u' h
    obtain ⟨ht, hs⟩ := doStep_ok_counts h
    refine ⟨ht, ?_, ?_⟩
    · rw [hs]
      by_cases hans : Step.answer s = q.correct_label
      · rw [if_pos hans]
        exact iff_of_true rfl hans
      · rw [if_neg hans]
        exact iff_of_false (by omega) hans
    · rw [hs]
      by_cases hans : Step.answer s = q.correct_label
      · rw [if_pos hans]
        exact Or.inr rfl
      · rw [if_neg hans]
        exact Or.inl rfl
  · intro pool l
    exact runSteps_score_le pool initialState l (Nat.le_refl 0)

/-- Witness for C9: a correctly answered True/False question moves the
session from score 0, total 0 to score 1, total 1. -/
theorem C9_witness :
    (doStep samplePool initialState (Step.tfQ true 0 0 "1")).total =
      initialState.total + 1 ∧
    ((doStep samplePool initialState (Step.tfQ true 0 0 "1")).score =
        initialState.score + 1 ↔
      Step.answer (Step.tfQ true 0 0 "1") =
        (Question.mk (tfPrompt "HTTP" "HyperText Transfer Protocol")
          ["True", "False"] "1").correct_label) ∧
    ((doStep samplePool initialState (Step.tfQ true 0 0 "1")).score =
        initialState.score ∨
      (doStep samplePool initialState (Step.tfQ true 0 0 "1")).score =
        initialState.score + 1) :=
  C9_score_invariant.1 samplePool initialState (Step.tfQ true 0 0 "1")
    (Question.mk (tfPrompt "HTTP" "HyperText Transfer Protocol")
      ["True", "False"] "1") (insert 0 ∅) (by decide)

/-- C5: every successfully produced True/False question has option list
exactly ["True", "False"]; with True polarity its prompt pairs the drawn
term with that same record's definition and the label is "1"; with False
polarity its prompt pairs the term with the definition of a different
available record index and the label is "2". -/
theorem C5_tf_question_shape :
    ∀ (pool : List Record) (used : Finset ℕ) (coin : Bool) (cs ws : ℕ)
      (q : Question) (u' : Finset ℕ),
      generate_tf_question pool used coin cs ws = (GenResult.ok q, u') →
      q.options = ["True", "False"] ∧
      ∃ c, randChoice (availableIndices pool used) cs = some c ∧
        ((coin = true ∧
          q.prompt = tfPrompt (recAt pool c).term (recAt pool c).definition ∧
          q.correct_label = "1") ∨
         (coin = false ∧ ∃ w, w ∈ availableIndices pool used ∧ w ≠ c ∧
          q.prompt = tfPrompt (recAt pool c).term (recAt pool w).definition ∧
          q.correct_label = "2")) := by
  intro pool used coin cs ws q u' h
  obtain ⟨c, hc, hu, hopt, hrest⟩ := gtf_ok_inv h
  refine ⟨hopt, c, hc, ?_⟩
  rcases hrest with ⟨hco, hp, hl⟩ | ⟨w, hco, hw, hp, hl⟩
  · exact Or.inl ⟨hco, hp, hl⟩
  · have hwm := randChoice_mem hw
    rw [List.mem_filter] at hwm
    exact Or.inr ⟨hco, w, hwm.1, by simpa using hwm.2, hp, hl⟩

/-- Witness for C5: a False-polarity question drawn from the four-record
pool pairs the term of record 0 with the definition of record 1 and is
labelled "2" over the fixed option pair. -/
theorem C5_witness :
    (Question.mk (tfPrompt "HTTP" "Domain Name System") ["True", "False"]
        "2").options = ["True", "False"] ∧
    ∃ c, randChoice (availableIndices samplePool ∅) 0 = some c ∧
      ((false = true ∧
        (Question.mk (tfPrompt "HTTP" "Domain Name System") ["True", "False"]
          "2").prompt =
          tfPrompt (recAt samplePool c).term (recAt samplePool c).definition ∧
        (Question.mk (tfPrompt "HTTP" "Domain Name System") ["True", "False"]
          "2").correct_label = "1") ∨
       (false = false ∧ ∃ w, w ∈ availableIndices samplePool ∅ ∧ w ≠ c ∧
        (Question.mk (tfPrompt "HTTP" "Domain Name System") ["True", "False"]
          "2").prompt =
          tfPrompt (recAt samplePool c).term (recAt samplePool w).definition ∧
        (Question.mk (tfPrompt "HTTP" "Domain Name System") ["True", "False"]
          "2").correct_label = "2")) :=
  C5_tf_question_shape samplePool ∅ false 0 0
    (Question.mk (tfPrompt "HTTP" "Domain Name System") ["True", "False"] "2")
    (insert 0 ∅) (by decide)

/-- C3: every successfully produced choice question with requested count
k has exactly k options, its correct_label is the string of some n with
1 ≤ n ≤ k, and the option at that 1-based position is textually equal to
the correct record's designated text (its definition for
definition-choice, its term for term-choice), even when distractor texts
duplicate the correct text. -/
theorem C3_correct_label :
    (∀ (pool : List Record) (used : Finset ℕ) (k cs : ℕ) (ds ss : ℕ → ℕ)
        (q : Question) (u' : Finset ℕ) (c : ℕ),
      generate_definition_question pool used k cs ds ss =
        (GenResult.ok q, u') →
      randChoice (availableIndices pool used) cs = some c →
      q.options.length = k ∧
      ∃ n, 1 ≤ n ∧ n ≤ k ∧ q.correct_label = toString n ∧
        q.options.get? (n - 1) = some (recAt pool c).definition) ∧
    (∀ (pool : List Record) (used : Finset ℕ) (k cs : ℕ) (ds ss : ℕ → ℕ)
        (q : Question) (u' : Finset ℕ) (c : ℕ),
      generate_term_question pool used k cs ds ss = (GenResult.ok q, u') →
      randChoice (availableIndices pool used) cs = some c →
      q.options.length = k ∧
      ∃ n, 1 ≤ n ∧ n ≤ k ∧ q.correct_label = toString n ∧
        q.options.get? (n - 1) = some (recAt pool c).term) := by
  constructor
  · intro pool used k cs ds ss q u' c h hc
    obtain ⟨c', d, hg, hc', hs, hu, hq⟩ := gdq_ok_inv h
    rw [hc'] at hc
    have hcc := Option.some.inj hc
    subst hcc
    subst hq
    obtain ⟨hz, hsample⟩ := randSampleZ_some_inv hs
    obtain ⟨hdlen, hdmem, hdnd⟩ := randSample_some_facts _ _ _ _ hsample
    have hperm := shuffle_perm ((recAt pool c').definition ::
      d.map (fun i => (recAt pool i).definition)) ss
    have hmem : (recAt pool c').definition ∈ shuffle ((recAt pool c').definition ::
        d.map (fun i => (recAt pool i).definition)) ss :=
      hperm.mem_iff.mpr (List.mem_cons_self _ _)
    obtain ⟨hidx, hget⟩ := indexOf_facts hmem
    have h1 : (shuffle ((recAt pool c').definition ::
        d.map (fun i => (recAt pool i).definition)) ss).length =
        d.length + 1 := by
      rw [hperm.length_eq, List.length_cons, List.length_map]
    have hlen : (shuffle ((recAt pool c').definition ::
        d.map (fun i => (recAt pool i).definition)) ss).length = k := by
      omega
    refine ⟨hlen, (shuffle ((recAt pool c').definition ::
      d.map (fun i => (recAt pool i).definition)) ss).indexOf
        (recAt pool c').definition + 1, by omega, by omega, rfl, hget⟩
  · intro pool used k cs ds ss q u' c h hc
    obtain ⟨c', d, hg, hc', hs, hu, hq⟩ := gtq_ok_inv h
    rw [hc'] at hc
    have hcc := Option.some.inj hc
    subst hcc
    subst hq
    obtain ⟨hz, hsample⟩ := randSampleZ_some_inv hs
    obtain ⟨hdlen, hdmem, hdnd⟩ := randSample_some_facts _ _ _ _ hsample
    have hperm := shuffle_perm ((recAt pool c').term ::
      d.map (fun i => (recAt pool i).term)) ss
    have hmem : (recAt pool c').term ∈ shuffle ((recAt pool c').term ::
        d.map (fun i => (recAt pool i).term)) ss :=
      hperm.mem_iff.mpr (List.mem_cons_self _ _)
    obtain ⟨hidx, hget⟩ := indexOf_facts hmem
    have h1 : (shuffle ((recAt pool c').term ::
        d.map (fun i => (recAt pool i).term)) ss).length = d.length + 1 := by
      rw [hperm.length_eq, List.length_cons, List.length_map]
    have hlen : (shuffle ((recAt pool c').term ::
        d.map (fun i => (recAt pool i).term)) ss).length = k := by
      omega
    refine ⟨hlen, (shuffle ((recAt pool c').term ::
      d.map (fun i => (recAt pool i).term)) ss).indexOf
        (recAt pool c').term + 1, by omega, by omega, rfl, hget⟩

/-- Witness for C3: the concrete two-choice definition question drawn
from the four-record pool with zero seeds has two options, label "1",
and option 1 is the correct definition text. -/
theorem C3_witness :
    (Question.mk (defPrompt "HTTP")
      ["HyperText Transfer Protocol", "Domain Name System"]
      "1").options.length = 2 ∧
    ∃ n, 1 ≤ n ∧ n ≤ 2 ∧
      (Question.mk (defPrompt "HTTP")
        ["HyperText Transfer Protocol", "Domain Name System"]
        "1").correct_label = toString n ∧
      (Question.mk (defPrompt "HTTP")
        ["HyperText Transfer Protocol", "Domain Name System"]
        "1").options.get? (n - 1) = some (recAt samplePool 0).definition :=
  C3_correct_label.1 samplePool ∅ 2 0 (fun _ => 0) (fun _ => 0)
    (Question.mk (defPrompt "HTTP")
      ["HyperText Transfer Protocol", "Domain Name System"] "1")
    (insert 0 ∅) 0 (by decide) (by decide)

/-- C6: when a choice builder succeeds with requested count k, the used
set afterwards is exactly the prior set plus the one chosen correct
index (previously unused), and the k-1 sampled distractor indices are
pairwise distinct available indices different from the correct one, none
of which is in the resulting used set. -/
theorem C6_distractor_discipline :
    (∀ (pool : List Record) (used : Finset ℕ) (k cs : ℕ) (ds ss : ℕ → ℕ)
        (q : Question) (u' : Finset ℕ) (c : ℕ),
      generate_definition_question pool used k cs ds ss =
        (GenResult.ok q, u') →
      randChoice (availableIndices pool used) cs = some c →
      u' = insert c used ∧ c ∈ availableIndices pool used ∧ c ∉ used ∧
      ∃ dids, randSampleZ ((availableIndices pool used).filter
          (fun i => i != c)) ((k : ℤ) - 1) ds = some dids ∧
        dids.length = k - 1 ∧ dids.Nodup ∧
        ∀ i ∈ dids, i ∈ availableIndices pool used ∧ i ≠ c ∧ i ∉ u') ∧
    (∀ (pool : List Record) (used : Finset ℕ) (k cs : ℕ) (ds ss : ℕ → ℕ)
        (q : Question) (u' : Finset ℕ) (c : ℕ),
      generate_term_question pool used k cs ds ss = (GenResult.ok q, u') →
      randChoice (availableIndices pool used) cs = some c →
      u' = insert c used ∧ c ∈ availableIndices pool used ∧ c ∉ used ∧
      ∃ dids, randSampleZ ((availableIndices pool used).filter
          (fun i => i != c)) ((k : ℤ) - 1) ds = some dids ∧
        dids.length = k - 1 ∧ dids.Nodup ∧
        ∀ i ∈ dids, i ∈ availableIndices pool used ∧ i ≠ c ∧ i ∉ u') := by
  constructor
  · intro pool used k cs ds ss q u' c h hc
    obtain ⟨c', d, hg, hc', hs, hu, hq⟩ := gdq_ok_inv h
    rw [hc'] at hc
    have hcc := Option.some.inj hc
    subst hcc
    have hcm := mem_availableIndices.mp (randChoice_mem hc')
    obtain ⟨hz, hsample⟩ := randSampleZ_some_inv hs
    obtain ⟨hdlen, hdmem, hdnd⟩ := randSample_some_facts _ _ _ _ hsample
    have hfnd : ((availableIndices pool used).filter
        (fun i => i != c')).Nodup :=
      (availableIndices_nodup pool used).filter _
    refine ⟨hu, randChoice_mem hc', hcm.2, d, hs, by omega, hdnd hfnd, ?_⟩
    intro i hi
    have hif := List.mem_filter.mp (hdmem i hi)
    have hine : i ≠ c' := by simpa using hif.2
    have hium := mem_availableIndices.mp hif.1
    refine ⟨hif.1, hine, ?_⟩
    rw [hu]
    intro hins
    rcases Finset.mem_insert.mp hins with hh | hh
    · exact hine hh
    · exact hium.2 hh
  · intro pool used k cs ds ss q u' c h hc
    obtain ⟨c', d, hg, hc', hs, hu, hq⟩ := gtq_ok_inv h
    rw [hc'] at hc
    have hcc := Option.some.inj hc
    subst hcc
    have hcm := mem_availableIndices.mp (randChoice_mem hc')
    obtain ⟨hz, hsample⟩ := randSampleZ_some_inv hs
    obtain ⟨hdlen, hdmem, hdnd⟩ := randSample_some_facts _ _ _ _ hsample
    have hfnd : ((availableIndices pool used).filter
        (fun i => i != c')).Nodup :=
      (availableIndices_nodup pool used).filter _
    refine ⟨hu, randChoice_mem hc', hcm.2, d, hs, by omega, hdnd hfnd, ?_⟩
    intro i hi
    have hif := List.mem_filter.mp (hdmem i hi)
    have hine : i ≠ c' := by simpa using hif.2
    have hium := mem_availableIndices.mp hif.1
    refine ⟨hif.1, hine, ?_⟩
    rw [hu]
    intro hins
    rcases Finset.mem_insert.mp hins with hh | hh
    · exact hine hh
    · exact hium.2 hh

/-- Witness for C6: the concrete two-choice definition question drawn
with zero seeds consumes exactly index 0 and samples the single
distractor index 1, which stays outside the used set. -/
theorem C6_witness :
    insert 0 ∅ = insert 0 (∅ : Finset ℕ) ∧
    0 ∈ availableIndices samplePool ∅ ∧ 0 ∉ (∅ : Finset ℕ) ∧
    ∃ dids, randSampleZ ((availableIndices samplePool ∅).filter
        (fun i => i != 0)) ((2 : ℤ) - 1) (fun _ => 0) = some dids ∧
      dids.length = 2 - 1 ∧ dids.Nodup ∧
      ∀ i ∈ dids, i ∈ availableIndices samplePool ∅ ∧ i ≠ 0 ∧
        i ∉ insert 0 (∅ : Finset ℕ) :=
  C6_distractor_discipline.1 samplePool ∅ 2 0 (fun _ => 0) (fun _ => 0)
    (Question.mk (defPrompt "HTTP")
      ["HyperText Transfer Protocol", "Domain Name System"] "1")
    (insert 0 ∅) 0 (by decide) (by decide)

/-- C7: the reported percentage is score/total*100 (0 when nothing was
answered), the qualitative band follows the 90/80/70/60 thresholds in
order, and 10 correct answers out of 10 give 100 with the excellent
band. -/
theorem C7_percentage_bands :
    (∀ s : ℕ, percentageOf s 0 = 0) ∧
    (∀ s t : ℕ, 0 < t → percentageOf s t = (s : ℚ) / (t : ℚ) * 100) ∧
    (∀ p : ℚ,
      (bandOf p = Band.excellent ↔ 90 ≤ p) ∧
      (bandOf p = Band.great ↔ 80 ≤ p ∧ p < 90) ∧
      (bandOf p = Band.good ↔ 70 ≤ p ∧ p < 80) ∧
      (bandOf p = Band.passed ↔ 60 ≤ p ∧ p < 70) ∧
      (bandOf p = Band.keepPracticing ↔ p < 60)) ∧
    percentageOf 10 10 = 100 ∧ bandOf (percentageOf 10 10) = Band.excellent := by
  refine ⟨?_, ?_, ?_, ?_, ?_⟩
  · intro s
    simp [percentageOf]
  · intro s t ht
    simp [percentageOf, ht]
  · intro p
    unfold bandOf
    split_ifs with h1 h2 h3 h4 <;>
      refine ⟨?_, ?_, ?_, ?_, ?_⟩ <;> constructor <;> intro h <;>
      first
        | rfl
        | assumption
        | (constructor <;> linarith)
        | (simp at h; done)
        | (exfalso; obtain ⟨ha, hb⟩ := h; linarith)
        | (exfalso; linarith)
        | linarith
  · norm_num [percentageOf]
  · have h : percentageOf 10 10 = 100 := by norm_num [percentageOf]
    rw [h]
    norm_num [bandOf]

/-- Witness for C7: seven correct answers out of ten give 70 percent. -/
theorem C7_witness :
    percentageOf 7 10 = (7 : ℚ) / (10 : ℚ) * 100 :=
  C7_percentage_bands.2.1 7 10 (by norm_num)

/-- C8: over parsed CSV rows, the loader keeps, in input order, exactly
the rows with at least two fields whose first two trimmed fields are
non-empty, each contributing the record of those two trimmed fields;
every other row contributes nothing. -/
theorem C8_loader_keeps_valid_rows :
    ∀ rows : List (List String),
      load_csv rows = (rows.filter specValidRow).map specRecordOf := by
  intro rows
  induction rows with
  | nil => rfl
  | cons row rest ih =>
    by_cases h2 : 2 ≤ row.length
    · by_cases hcond : (row.getD 0 "").trim ≠ "" ∧ (row.getD 1 "").trim ≠ ""
      · have hval : specValidRow row = true := by
          unfold specValidRow
          rw [decide_eq_true h2, decide_eq_true hcond.1, decide_eq_true hcond.2]
          rfl
        simp only [load_csv]
        rw [if_pos h2, if_pos hcond, List.filter_cons, hval]
        simp [specRecordOf, ih]
      · have hval : specValidRow row = false := by
          unfold specValidRow
          rw [decide_eq_true h2]
          rcases not_and_or.mp hcond with hc | hc
          · rw [decide_eq_false hc]
            rfl
          · rw [decide_eq_false hc]
            simp
        simp only [load_csv]
        rw [if_pos h2, if_neg hcond, List.filter_cons, hval]
        simpa using ih
    · have hval : specValidRow row = false := by
        unfold specValidRow
        rw [decide_eq_false h2]
        rfl
      simp only [load_csv]
      rw [if_neg h2, List.filter_cons, hval]
      simpa using ih
